import Mathlib

/-!
Verification of the go-testbuilder combination-expansion and
builder-chain-materialization engine, shallowly embedded from
`testbuilder.go`.

Conventions of the embedding:
* Go generic parameters `SUT`, `STATE`, `ASSERT` become type parameters
  `σ`, `τ`, `α`; the `*testing.T` context becomes an opaque type parameter `T`.
* A Go setup function `func(t *testing.T, sut *SUT, state *STATE)` mutating
  through pointers becomes a pure function `T → σ → τ → σ × τ`; a nil-able
  function field becomes an `Option` of that type.
* Go zero values (`var sut SUT`) are modelled with `Inhabited.default`.
* The unbounded `for !isDone` loop of `GenerateTestSets` is embedded with
  fuel; `GenerateTestSets` instantiates the fuel with the product of the
  per-stage alternative counts, which is proved below to be exactly the
  number of iterations the Go loop performs whenever every stage is
  non-empty (with an empty stage the Go code panics on an out-of-range
  index, a case the registration API cannot produce).
* Out-of-range list indexing, a Go panic, is modelled by `List.getD` with a
  default; all theorems below only exercise in-range indices.
* `panic` in `RegisterAlternative` is modelled with `Except.error` carrying
  the panic message.
-/

namespace GoTestBuilder

/-- Embeds Go `TestCase[SUT, STATE, ASSERT]` (testbuilder.go): a name, the
nil-able cumulative `StateBuilder`, the nil-able one-shot `SpecificBuilder`,
and the opaque assertion payload. -/
structure TestCase (T σ τ α : Type) where
  TestName : String
  StateBuilder : Option (T → σ → τ → σ × τ)
  SpecificBuilder : Option (T → σ → τ → σ × τ)
  Assertion : α

/-- Embeds Go `TestCaseSet`: one stage, holding its ordered alternatives. -/
structure TestCaseSet (T σ τ α : Type) where
  TestAlternatives : List (TestCase T σ τ α)

/-- Embeds Go `TestSet`: one concrete combination (a Path) with its label. -/
structure TestSet (T σ τ α : Type) where
  TestCases : List (TestCase T σ τ α)
  TestSetName : String

/-- Embeds Go `TestData`: the values produced for a single test run. -/
structure TestData (σ τ α : Type) where
  SUT : σ
  State : τ
  Assert : α

/-- Embeds Go `TestsBuilder`: the registry of stages. -/
structure TestsBuilder (T σ τ α : Type) where
  TestCaseSets : List (TestCaseSet T σ τ α)

/-- Embeds Go `IndexCounter` (mixed-radix combination counter). -/
structure IndexCounter where
  currIndexes : List Nat
  alternativeCountList : List Nat
  deriving DecidableEq, Repr

/-- Embeds Go `NewCurrIndexes`: an all-zero tuple over the given radices. -/
def NewCurrIndexes (alternativeCountList : List Nat) : IndexCounter :=
  { currIndexes := List.replicate alternativeCountList.length 0
    alternativeCountList := alternativeCountList }

/-- Embeds the search-and-increment loop of Go `IndexCounter.AddOne`: find
the lowest position whose index has not reached its radix minus one,
increment it, and zero every lower position; `none` means no such position
exists (the Go loop falls through with `isDone = true` and the indexes are
left untouched). The head of the lists is position 0, the lowest. -/
def addOneAux : List Nat → List Nat → Option (List Nat)
  | c :: cs, r :: rs =>
    if c < r - 1 then some ((c + 1) :: cs)
    else
      match addOneAux cs rs with
      | some cs2 => some (0 :: cs2)
      | none => none
  | _, _ => none

/-- Embeds Go `IndexCounter.AddOne` as a value transformer: the updated
counter together with the `isDone` flag it returns. -/
def AddOne (idx : IndexCounter) : IndexCounter × Bool :=
  match addOneAux idx.currIndexes idx.alternativeCountList with
  | some next => ({ idx with currIndexes := next }, false)
  | none => (idx, true)

/-- Embeds Go `IndexCounter.String`: each index rendered as unseparated
decimal digits. (Named `counterString` since `String` is taken in Lean.) -/
def counterString (idx : IndexCounter) : String :=
  String.join (idx.currIndexes.map Nat.repr)

/-- The tuples visited when the counter is driven by repeated `AddOne` until
it reports done, exactly as the Go loop in `GenerateTestSets` drives it:
record the current tuple, step, stop once `AddOne` returns `true`.
Fuel-bounded; the callers below supply sufficient fuel. -/
def counterRun : IndexCounter → Nat → List (List Nat)
  | _, 0 => []
  | idx, fuel + 1 =>
    match AddOne idx with
    | (next, isDone) =>
      if isDone then [idx.currIndexes] else idx.currIndexes :: counterRun next fuel

/-- The full enumeration of a radix list: start at the all-zero tuple and
drive `AddOne` until done. The fuel, the product of the radices, is proved
sufficient below (`counterSeq_eq_range_map`). -/
def counterSeq (radices : List Nat) : List (List Nat) :=
  counterRun (NewCurrIndexes radices) radices.prod

/-- The zero-valued `TestCase` (all Go fields at their zero value). -/
def defaultTestCase [Inhabited α] : TestCase T σ τ α :=
  { TestName := "", StateBuilder := none, SpecificBuilder := none, Assertion := default }

/-- Embeds the inner selection loop of Go `GenerateTestSets`: for each stage
pick the alternative selected by the current tuple. -/
def chooseTestCases [Inhabited α] (sets : List (TestCaseSet T σ τ α))
    (indexes : List Nat) : List (TestCase T σ τ α) :=
  (sets.zip indexes).map fun p => p.1.TestAlternatives.getD p.2 defaultTestCase

/-- Embeds one iteration body of the Go `GenerateTestSets` loop: build the
`TestSet` for the current tuple; the label is attached only when some stage
has more than one alternative (otherwise `TestSetName` keeps its zero value
`""`). -/
def mkTestSet [Inhabited α] (sets : List (TestCaseSet T σ τ α))
    (more : Bool) (cur : List Nat) : TestSet T σ τ α :=
  { TestCases := chooseTestCases sets cur
    TestSetName := if more then String.join (cur.map Nat.repr) else "" }

/-- Embeds the `for !isDone` loop of Go `GenerateTestSets`, fuel-bounded. -/
def genRun [Inhabited α] (sets : List (TestCaseSet T σ τ α)) (more : Bool) :
    IndexCounter → Nat → List (TestSet T σ τ α)
  | _, 0 => []
  | idx, fuel + 1 =>
    match AddOne idx with
    | (next, isDone) =>
      if isDone then [mkTestSet sets more idx.currIndexes]
      else mkTestSet sets more idx.currIndexes :: genRun sets more next fuel

/-- Embeds Go `TestsBuilder.GenerateTestSets`. -/
def GenerateTestSets [Inhabited α] (ts : TestsBuilder T σ τ α) :
    List (TestSet T σ τ α) :=
  let alternativeCountList := ts.TestCaseSets.map fun s => s.TestAlternatives.length
  let moreThanOneAlternative := alternativeCountList.any fun n => decide (1 < n)
  genRun ts.TestCaseSets moreThanOneAlternative
    (NewCurrIndexes alternativeCountList) alternativeCountList.prod

/-- Embeds the loop body of the Go `build` closure (`Tests`, testbuilder.go
lines 401-426): walk the path's cases; run each non-nil `StateBuilder`;
`continue` while `j < i`; at `j = i` run the non-nil `SpecificBuilder` and
`break`. `j` is the index of the head of `cases`. -/
def buildLoop (t : T) (i : Nat) :
    List (TestCase T σ τ α) → Nat → σ → τ → σ × τ
  | [], _, sut, state => (sut, state)
  | c :: rest, j, sut, state =>
    let p :=
      match c.StateBuilder with
      | some b => b t sut state
      | none => (sut, state)
    if j < i then buildLoop t i rest (j + 1) p.1 p.2
    else
      match c.SpecificBuilder with
      | some b => b t p.1 p.2
      | none => p

/-- Embeds the Go `build` closure for position `i` of a path: start from
zero-valued SUT and state, run the loop, return the data with the current
case's assertion. -/
def build [Inhabited σ] [Inhabited τ] (testCases : List (TestCase T σ τ α))
    (i : Nat) (curcase : TestCase T σ τ α) (t : T) : TestData σ τ α :=
  let p := buildLoop t i testCases 0 default default
  { SUT := p.1, State := p.2, Assert := curcase.Assertion }

/-- The name emitted by Go `Tests` for a case of a `TestSet`. -/
def emittedName (testSetName : String) (curcase : TestCase T σ τ α) : String :=
  if testSetName ≠ "" then "Test Alternative #" ++ testSetName ++ "_" ++ curcase.TestName
  else curcase.TestName

/-- Embeds Go `TestsBuilder.Tests`: the sequence of (name, builder) pairs the
iterator yields, in yield order (the `iter.Seq2` is modelled as the list of
pairs it offers; early consumer cancellation only truncates this list). -/
def Tests [Inhabited σ] [Inhabited τ] [Inhabited α] (ts : TestsBuilder T σ τ α) :
    List (String × (T → TestData σ τ α)) :=
  (GenerateTestSets ts).flatMap fun tset =>
    tset.TestCases.enum.map fun p =>
      (emittedName tset.TestSetName p.2, fun t => build tset.TestCases p.1 p.2 t)

/-- Embeds Go `TestsBuilder.Register`: a new stage holding exactly one new
alternative, appended to the registry; returns the updated registry and the
new case (the Go handle). -/
def Register [Inhabited α] (ts : TestsBuilder T σ τ α) (name : String) :
    TestsBuilder T σ τ α × TestCase T σ τ α :=
  let testcase : TestCase T σ τ α :=
    { TestName := name, StateBuilder := none, SpecificBuilder := none, Assertion := default }
  let newTestCaseSet : TestCaseSet T σ τ α := { TestAlternatives := [testcase] }
  ({ TestCaseSets := ts.TestCaseSets ++ [newTestCaseSet] }, testcase)

/-- The Go panic message of `RegisterAlternative` (an apostrophe is written
by code point to keep the text exact). -/
def registerAlternativePanicMessage (name : String) : String :=
  let q := String.singleton (Char.ofNat 39)
  "Cannot create alternative " ++ q ++ name ++ q ++ ", " ++
    "since no test is registered yet. " ++
    "Please Use builder.Register(name) first, before defining alternatives"

/-- Embeds Go `TestsBuilder.RegisterAlternative`: append a new alternative to
the most recently created stage; the Go `panic` on an empty registry is
modelled as `Except.error` with the panic message. -/
def RegisterAlternative [Inhabited α] (ts : TestsBuilder T σ τ α) (name : String) :
    Except String (TestsBuilder T σ τ α × TestCase T σ τ α) :=
  let testcase : TestCase T σ τ α :=
    { TestName := name, StateBuilder := none, SpecificBuilder := none, Assertion := default }
  match h : ts.TestCaseSets with
  | [] => Except.error (registerAlternativePanicMessage name)
  | _ :: _ =>
    let latest := ts.TestCaseSets.getLast (by simp [h])
    let updated : TestCaseSet T σ τ α :=
      { latest with TestAlternatives := latest.TestAlternatives ++ [testcase] }
    Except.ok ({ TestCaseSets := ts.TestCaseSets.dropLast ++ [updated] }, testcase)

/-! ### Mixed-radix arithmetic

`IndexCounter` is a little-endian mixed-radix counter: the head of
`currIndexes` is the fastest-cycling position. `toTuple` gives the digit
tuple of a value; `ofTuple` is its inverse on in-range values. -/

/-- Little-endian mixed-radix digits of `v` for the given radices. -/
def toTuple : List Nat → Nat → List Nat
  | [], _ => []
  | r :: rs, v => v % r :: toTuple rs (v / r)

/-- Value of a digit tuple; inverse of `toTuple` on in-range values. -/
def ofTuple : List Nat → List Nat → Nat
  | r :: rs, c :: cs => c + r * ofTuple rs cs
  | _, _ => 0

/-- The per-stage alternative counts of a registry, in stage order. -/
def altCounts (ts : TestsBuilder T σ τ α) : List Nat :=
  ts.TestCaseSets.map fun s => s.TestAlternatives.length

/-- Whether some stage has more than one alternative (Go
`moreThanOneAlternative`). -/
def moreFlag (ts : TestsBuilder T σ τ α) : Bool :=
  (altCounts ts).any fun n => decide (1 < n)

/-! ### The build contract

`specBuild` is the one definition written from the spec's words (the §4.4
`build(context)` contract) rather than from the source: fold the cumulative
builders of positions `0..i` over a fresh zero-valued pair, then apply the
one-shot builder of position `i`, an absent builder being a no-op. It is
compared with the source-side `build` in `build_eq_spec`. -/

/-- Apply a nil-able builder; a nil builder is a no-op. -/
def applyOptBuilder {T σ τ : Type} (t : T) (f : Option (T → σ → τ → σ × τ)) (p : σ × τ) : σ × τ :=
  match f with
  | some b => b t p.1 p.2
  | none => p

/-- Fold a list of nil-able cumulative builders over a starting pair. -/
def specStates {T σ τ : Type} (t : T) (fs : List (Option (T → σ → τ → σ × τ))) (p : σ × τ) : σ × τ :=
  fs.foldl (fun q f => applyOptBuilder t f q) p

/-- The spec's description of `build` at position `i` of path `P` (see the
section comment above). -/
def specBuild [Inhabited σ] [Inhabited τ] [Inhabited α]
    (P : List (TestCase T σ τ α)) (i : Nat) (t : T) : σ × τ :=
  applyOptBuilder t (P.getD i defaultTestCase).SpecificBuilder
    (specStates t ((P.take (i + 1)).map fun c => c.StateBuilder) (default, default))

/-! ### Concrete example registries, mirroring the repository's own tests -/

/-- A builder appending `s` to a string-typed SUT. -/
def appendSUT (s : String) : Option (Unit → String → Unit → String × Unit) :=
  some fun _ sut st => (sut ++ s, st)

/-- A one-shot builder overwriting the SUT with `s`. -/
def overwriteSUT (s : String) : Option (Unit → String → Unit → String × Unit) :=
  some fun _ _ st => (s, st)

/-- A test case with a name and no builders. -/
def namedCase (n : String) : TestCase Unit Unit Unit Unit :=
  { TestName := n, StateBuilder := none, SpecificBuilder := none, Assertion := () }

/-- A string-SUT test case with the given name and builders. -/
def strCase (n : String) (sb spb : Option (Unit → String → Unit → String × Unit)) :
    TestCase Unit String Unit Unit :=
  { TestName := n, StateBuilder := sb, SpecificBuilder := spb, Assertion := () }

/-- Four single-alternative stages appending a, b, c, d. -/
def exampleFourStages : TestsBuilder Unit String Unit Unit :=
  { TestCaseSets := [
      { TestAlternatives := [strCase "1" (appendSUT "a") none] },
      { TestAlternatives := [strCase "2" (appendSUT "b") none] },
      { TestAlternatives := [strCase "3" (appendSUT "c") none] },
      { TestAlternatives := [strCase "4" (appendSUT "d") none] }] }

/-- The same four stages, the third additionally carrying a one-shot builder
overwriting the SUT with the sentinel. -/
def exampleFourStagesSentinel : TestsBuilder Unit String Unit Unit :=
  { TestCaseSets := [
      { TestAlternatives := [strCase "1" (appendSUT "a") none] },
      { TestAlternatives := [strCase "2" (appendSUT "b") none] },
      { TestAlternatives := [strCase "3" (appendSUT "c") (overwriteSUT "-")] },
      { TestAlternatives := [strCase "4" (appendSUT "d") none] }] }

/-- The single path of `exampleFourStagesSentinel`. -/
def exampleSentinelPath : List (TestCase Unit String Unit Unit) :=
  [strCase "1" (appendSUT "a") none,
   strCase "2" (appendSUT "b") none,
   strCase "3" (appendSUT "c") (overwriteSUT "-"),
   strCase "4" (appendSUT "d") none]

/-- `exampleSentinelPath` with position 3 altered; positions 0..2 and position
2's one-shot builder agree with `exampleSentinelPath`. -/
def exampleAlteredPath : List (TestCase Unit String Unit Unit) :=
  [strCase "1" (appendSUT "a") none,
   strCase "2" (appendSUT "b") none,
   strCase "3" (appendSUT "c") (overwriteSUT "-"),
   strCase "X" (appendSUT "X") (overwriteSUT "!")]

/-- The empty registry. -/
def exampleEmpty : TestsBuilder Unit Unit Unit Unit := { TestCaseSets := [] }

/-- A registry with a single one-alternative stage. -/
def exampleOneStage : TestsBuilder Unit Unit Unit Unit :=
  { TestCaseSets := [{ TestAlternatives := [namedCase "a"] }] }

/-- A registry with per-stage alternative counts 2, 1, 2. -/
def exampleCounts212 : TestsBuilder Unit Unit Unit Unit :=
  { TestCaseSets := [
      { TestAlternatives := [namedCase "A0", namedCase "A1"] },
      { TestAlternatives := [namedCase "B0"] },
      { TestAlternatives := [namedCase "C0", namedCase "C1"] }] }

/-- Two single-alternative stages registered under the same name. -/
def exampleDupNames : TestsBuilder Unit Unit Unit Unit :=
  { TestCaseSets := [
      { TestAlternatives := [namedCase "x"] },
      { TestAlternatives := [namedCase "x"] }] }

/-! ### Arithmetic lemmas -/

theorem toTuple_zero (rs : List Nat) : toTuple rs 0 = List.replicate rs.length 0 := by
  induction rs with
  | nil => rfl
  | cons r rs ih => simp [toTuple, ih, List.replicate]

theorem toTuple_length (rs : List Nat) (v : Nat) : (toTuple rs v).length = rs.length := by
  induction rs generalizing v with
  | nil => rfl
  | cons r rs ih => simp [toTuple, ih]

theorem pred_mod_div {r p : Nat} (hr : 1 ≤ r) (hp : 1 ≤ p) :
    (r * p - 1) % r = r - 1 ∧ (r * p - 1) / r = p - 1 := by
  obtain ⟨q, rfl⟩ : ∃ q, p = q + 1 := ⟨p - 1, by omega⟩
  have hmul : r * (q + 1) = r * q + r := Nat.mul_succ r q
  have h1 : r * (q + 1) - 1 = r * q + (r - 1) := by
    rw [hmul]; generalize r * q = a; omega
  rw [h1]
  refine ⟨?_, ?_⟩
  · rw [Nat.mul_add_mod]
    exact Nat.mod_eq_of_lt (by omega)
  · rw [Nat.mul_add_div (by omega), Nat.div_eq_of_lt (by omega)]
    omega

theorem toTuple_prod_pred {rs : List Nat} (h : ∀ r ∈ rs, 1 ≤ r) :
    toTuple rs (rs.prod - 1) = rs.map (fun r => r - 1) := by
  induction rs with
  | nil => rfl
  | cons r rs ih =>
    have hr : 1 ≤ r := h r (by simp)
    have hp : 1 ≤ rs.prod := List.prod_pos fun a ha => h a (by simp [ha])
    have hmd := pred_mod_div hr hp
    simp only [List.prod_cons, toTuple, hmd.1, hmd.2, List.map_cons]
    rw [ih fun x hx => h x (by simp [hx])]

theorem addOneAux_toTuple_succ {rs : List Nat} (h : ∀ r ∈ rs, 1 ≤ r) :
    ∀ v : Nat, v + 1 < rs.prod →
      addOneAux (toTuple rs v) rs = some (toTuple rs (v + 1)) := by
  induction rs with
  | nil => intro v hv; simp [List.prod_nil] at hv
  | cons r rs ih =>
    intro v hv
    have hr : 1 ≤ r := h r (by simp)
    rw [List.prod_cons] at hv
    by_cases hc : v % r < r - 1
    · have h1 : v % r + 1 < r := by omega
      have hsplit : v + 1 = r * (v / r) + (v % r + 1) := by
        have hdm := Nat.div_add_mod v r
        generalize r * (v / r) = a at hdm ⊢; omega
      have hmod : (v + 1) % r = v % r + 1 := by
        rw [hsplit, Nat.mul_add_mod]; exact Nat.mod_eq_of_lt h1
      have hdiv : (v + 1) / r = v / r := by
        rw [hsplit, Nat.mul_add_div (by omega), Nat.div_eq_of_lt h1]
        omega
      show addOneAux (v % r :: toTuple rs (v / r)) (r :: rs) =
        some ((v + 1) % r :: toTuple rs ((v + 1) / r))
      rw [hmod, hdiv]
      simp [addOneAux, hc]
    · have hvr : v % r < r := Nat.mod_lt v (by omega)
      have hceq : v % r = r - 1 := by omega
      have hsplit : v + 1 = r * (v / r + 1) := by
        have hdm := Nat.div_add_mod v r
        rw [Nat.mul_succ]
        generalize r * (v / r) = a at hdm ⊢; omega
      have hlt : v / r + 1 < rs.prod := by
        rw [hsplit] at hv
        exact Nat.lt_of_mul_lt_mul_left hv
      have ihres := ih (fun x hx => h x (by simp [hx])) (v / r) hlt
      have hmod : (v + 1) % r = 0 := by rw [hsplit]; exact Nat.mul_mod_right r _
      have hdiv : (v + 1) / r = v / r + 1 := by
        rw [hsplit]; exact Nat.mul_div_cancel_left _ (by omega)
      show addOneAux (v % r :: toTuple rs (v / r)) (r :: rs) =
        some ((v + 1) % r :: toTuple rs ((v + 1) / r))
      rw [hmod, hdiv, hceq]
      simp only [addOneAux, if_neg (show ¬(r - 1 < r - 1) by omega)]
      rw [ihres]

theorem addOneAux_toTuple_last {rs : List Nat} (h : ∀ r ∈ rs, 1 ≤ r) :
    addOneAux (toTuple rs (rs.prod - 1)) rs = none := by
  induction rs with
  | nil => rfl
  | cons r rs ih =>
    have hr : 1 ≤ r := h r (by simp)
    have hp : 1 ≤ rs.prod := List.prod_pos fun a ha => h a (by simp [ha])
    have hmd := pred_mod_div hr hp
    show addOneAux (toTuple (r :: rs) ((r :: rs).prod - 1)) (r :: rs) = none
    simp only [List.prod_cons, toTuple, hmd.1, hmd.2]
    simp only [addOneAux, if_neg (show ¬(r - 1 < r - 1) by omega)]
    rw [ih fun x hx => h x (by simp [hx])]

theorem ofTuple_toTuple {rs : List Nat} (h : ∀ r ∈ rs, 1 ≤ r) :
    ∀ v, v < rs.prod → ofTuple rs (toTuple rs v) = v := by
  induction rs with
  | nil => intro v hv; simp [List.prod_nil] at hv; simpa [ofTuple, toTuple] using hv.symm
  | cons r rs ih =>
    intro v hv
    have hr : 1 ≤ r := h r (by simp)
    rw [List.prod_cons] at hv
    have hdiv : v / r < rs.prod := by
      rw [Nat.div_lt_iff_lt_mul (by omega)]
      simpa [Nat.mul_comm] using hv
    simp only [toTuple, ofTuple]
    rw [ih (fun x hx => h x (by simp [hx])) _ hdiv]
    exact Nat.mod_add_div v r

theorem toTuple_inj {rs : List Nat} (h : ∀ r ∈ rs, 1 ≤ r) {v w : Nat}
    (hv : v < rs.prod) (hw : w < rs.prod) (heq : toTuple rs v = toTuple rs w) :
    v = w := by
  have := ofTuple_toTuple h v hv
  rw [heq, ofTuple_toTuple h w hw] at this
  omega

theorem forall₂_toTuple_lt {rs : List Nat} (h : ∀ r ∈ rs, 1 ≤ r) (v : Nat) :
    List.Forall₂ (fun d r => d < r) (toTuple rs v) rs := by
  induction rs generalizing v with
  | nil => exact List.Forall₂.nil
  | cons r rs ih =>
    exact List.Forall₂.cons (Nat.mod_lt v (by have := h r (by simp); omega))
      (ih (fun x hx => h x (by simp [hx])) (v / r))

/-! ### The counter enumeration -/

theorem counterRun_toTuple {rs : List Nat} (h : ∀ r ∈ rs, 1 ≤ r) :
    ∀ (n v : Nat), v + n = rs.prod →
      counterRun ⟨toTuple rs v, rs⟩ n = (List.range n).map (fun k => toTuple rs (v + k)) := by
  intro n
  induction n with
  | zero => intro v _; rfl
  | succ m ih =>
    intro v hv
    rcases Nat.eq_zero_or_pos m with hm | hm
    · subst hm
      have hvtop : v = rs.prod - 1 := by omega
      have hlast : addOneAux (toTuple rs v) rs = none := by
        rw [hvtop]; exact addOneAux_toTuple_last h
      simp [counterRun, AddOne, hlast, List.range_succ]
    · have hsucc : addOneAux (toTuple rs v) rs = some (toTuple rs (v + 1)) :=
        addOneAux_toTuple_succ h v (by omega)
      have ihv := ih (v + 1) (by omega)
      simp only [counterRun, AddOne, hsucc]
      rw [if_neg (by simp)]
      rw [ihv, List.range_succ_eq_map, List.map_cons, List.map_map]
      refine congrArg₂ _ (by simp) ?_
      refine List.map_congr_left fun a _ => ?_
      show toTuple rs (v + 1 + a) = toTuple rs (v + Nat.succ a)
      congr 1
      omega

theorem counterSeq_eq_range_map {rs : List Nat} (h : ∀ r ∈ rs, 1 ≤ r) :
    counterSeq rs = (List.range rs.prod).map (toTuple rs) := by
  show counterRun (NewCurrIndexes rs) rs.prod = _
  have h0 : NewCurrIndexes rs = ⟨toTuple rs 0, rs⟩ := by
    simp [NewCurrIndexes, toTuple_zero]
  rw [h0, counterRun_toTuple h rs.prod 0 (by omega)]
  exact List.map_congr_left fun a _ => by rw [Nat.zero_add]

theorem genRun_eq_map [Inhabited α] (sets : List (TestCaseSet T σ τ α)) (more : Bool) :
    ∀ (fuel : Nat) (idx : IndexCounter),
      genRun sets more idx fuel = (counterRun idx fuel).map (mkTestSet sets more) := by
  intro fuel
  induction fuel with
  | zero => intro idx; rfl
  | succ f ih =>
    intro idx
    simp only [genRun, counterRun]
    rcases hA : AddOne idx with ⟨next, isDone⟩
    cases isDone
    · simp [ih]
    · simp

theorem GenerateTestSets_def [Inhabited α] (ts : TestsBuilder T σ τ α) :
    GenerateTestSets ts =
      genRun ts.TestCaseSets (moreFlag ts) (NewCurrIndexes (altCounts ts))
        (altCounts ts).prod := rfl

theorem altCounts_pos [Inhabited α] {ts : TestsBuilder T σ τ α}
    (h : ∀ s ∈ ts.TestCaseSets, 1 ≤ s.TestAlternatives.length) :
    ∀ r ∈ altCounts ts, 1 ≤ r := by
  intro r hr
  simp only [altCounts, List.mem_map] at hr
  obtain ⟨s, hs, rfl⟩ := hr
  exact h s hs

theorem GenerateTestSets_eq_range [Inhabited α] (ts : TestsBuilder T σ τ α)
    (h : ∀ s ∈ ts.TestCaseSets, 1 ≤ s.TestAlternatives.length) :
    GenerateTestSets ts =
      (List.range (altCounts ts).prod).map
        (fun v => mkTestSet ts.TestCaseSets (moreFlag ts) (toTuple (altCounts ts) v)) := by
  rw [GenerateTestSets_def, genRun_eq_map,
    show NewCurrIndexes (altCounts ts) = ⟨toTuple (altCounts ts) 0, altCounts ts⟩ from by
      simp [NewCurrIndexes, toTuple_zero],
    counterRun_toTuple (altCounts_pos h) _ 0 (by omega), List.map_map]
  exact List.map_congr_left fun a _ => by simp

/-! ### The build contract lemmas -/

theorem specStates_cons {T σ τ : Type} (t : T) (f : Option (T → σ → τ → σ × τ))
    (fs : List (Option (T → σ → τ → σ × τ))) (p : σ × τ) :
    specStates t (f :: fs) p = specStates t fs (applyOptBuilder t f p) := rfl

theorem buildLoop_eq_spec [Inhabited α] (t : T) :
    ∀ (cases : List (TestCase T σ τ α)) (k j : Nat) (s : σ) (st : τ),
      buildLoop t (j + k) cases j s st =
        applyOptBuilder t ((cases.getD k defaultTestCase).SpecificBuilder)
          (specStates t ((cases.take (k + 1)).map fun c => c.StateBuilder) (s, st)) := by
  intro cases
  induction cases with
  | nil =>
    intro k j s st
    simp [buildLoop, specStates, applyOptBuilder, defaultTestCase]
  | cons c rest ih =>
    intro k j s st
    cases k with
    | zero =>
      have hj : ¬j < j + 0 := by omega
      cases hsb : c.StateBuilder <;> cases hsp : c.SpecificBuilder <;>
        simp [buildLoop, if_neg hj, hsb, hsp, specStates_cons, specStates, applyOptBuilder]
    | succ k' =>
      have hj : j < j + (k' + 1) := by omega
      have harith : j + (k' + 1) = j + 1 + k' := by omega
      cases hsb : c.StateBuilder with
      | none =>
        simp only [buildLoop, if_pos hj, hsb]
        rw [harith, ih k' (j + 1) s st]
        simp [specStates_cons, applyOptBuilder, hsb]
      | some b =>
        simp only [buildLoop, if_pos hj, hsb]
        rw [harith, ih k' (j + 1) (b t s st).1 (b t s st).2]
        simp [specStates_cons, applyOptBuilder, hsb]

theorem build_eq_spec [Inhabited σ] [Inhabited τ] [Inhabited α]
    (P : List (TestCase T σ τ α)) (i : Nat) (cur : TestCase T σ τ α) (t : T) :
    build P i cur t =
      { SUT := (specBuild P i t).1, State := (specBuild P i t).2
        Assert := cur.Assertion } := by
  have h := buildLoop_eq_spec t P i 0 (default : σ) (default : τ)
  rw [Nat.zero_add] at h
  simp [build, specBuild, h]

theorem build_frame [Inhabited σ] [Inhabited τ] [Inhabited α]
    (P Q : List (TestCase T σ τ α)) (i : Nat) (t : T)
    (hstate : (P.take (i + 1)).map (fun c => c.StateBuilder) =
      (Q.take (i + 1)).map fun c => c.StateBuilder)
    (hspec : (P.getD i defaultTestCase).SpecificBuilder =
      (Q.getD i defaultTestCase).SpecificBuilder) :
    buildLoop t i P 0 (default : σ) (default : τ) =
      buildLoop t i Q 0 (default : σ) (default : τ) := by
  have h1 := buildLoop_eq_spec t P i 0 (default : σ) (default : τ)
  have h2 := buildLoop_eq_spec t Q i 0 (default : σ) (default : τ)
  rw [Nat.zero_add] at h1 h2
  rw [h1, h2, hstate, hspec]

/-! ### Strings, digits and labels -/

theorem stringJoin_foldl (l : List String) :
    ∀ a : String, l.foldl (fun r s => r ++ s) a = a ++ l.foldl (fun r s => r ++ s) "" := by
  induction l with
  | nil => intro a; simp
  | cons x xs ih =>
    intro a
    show xs.foldl (fun r s => r ++ s) (a ++ x) = a ++ xs.foldl (fun r s => r ++ s) ("" ++ x)
    rw [ih (a ++ x), ih ("" ++ x)]
    simp [String.append_assoc]

theorem stringJoin_cons (s : String) (l : List String) :
    String.join (s :: l) = s ++ String.join l := by
  show l.foldl (fun r s => r ++ s) ("" ++ s) = s ++ String.join l
  rw [stringJoin_foldl]
  simp [String.join]

theorem string_data_eq {s u : String} (h : s.data = u.data) : s = u := by
  cases s; cases u
  simp only [] at h
  exact congrArg String.mk h

theorem toDigitsCore_ne_nil (b : Nat) : ∀ (fuel n : Nat) (ds : List Char), ds ≠ [] →
    Nat.toDigitsCore b fuel n ds ≠ [] := by
  intro fuel
  induction fuel with
  | zero => intro n ds h; simpa [Nat.toDigitsCore] using h
  | succ f ih =>
    intro n ds h
    simp only [Nat.toDigitsCore]
    split
    · simp
    · exact ih _ _ (by simp)

theorem repr_data_ne_nil (n : Nat) : (Nat.repr n).data ≠ [] := by
  show (Nat.toDigits 10 n).asString.data ≠ []
  simp only [Nat.toDigits, List.asString]
  simp only [Nat.toDigitsCore]
  split
  · simp
  · exact toDigitsCore_ne_nil 10 n (n / 10) _ (by simp)

theorem label_ne_empty {tup : List Nat} (h : tup ≠ []) :
    String.join (tup.map Nat.repr) ≠ "" := by
  obtain ⟨d, rest, rfl⟩ := List.exists_cons_of_ne_nil h
  rw [List.map_cons, stringJoin_cons]
  intro hcontra
  have hdata := congrArg String.data hcontra
  rw [String.data_append] at hdata
  have : (Nat.repr d).data = [] := (List.append_eq_nil.mp hdata).1
  exact repr_data_ne_nil d this

theorem repr_length_of_lt_ten : ∀ n, n < 10 → (Nat.repr n).data.length = 1 := by decide

theorem repr_inj_of_lt_ten : ∀ a, a < 10 → ∀ b, b < 10 → Nat.repr a = Nat.repr b → a = b := by
  decide

theorem label_inj : ∀ {t1 t2 : List Nat}, t1.length = t2.length →
    (∀ d ∈ t1, d < 10) → (∀ d ∈ t2, d < 10) →
    String.join (t1.map Nat.repr) = String.join (t2.map Nat.repr) → t1 = t2 := by
  intro t1
  induction t1 with
  | nil =>
    intro t2 hlen _ _ _
    exact (List.length_eq_zero.mp hlen.symm).symm
  | cons a t1 ih =>
    intro t2 hlen h1 h2 heq
    obtain ⟨b, t2, rfl⟩ : ∃ b t2x, t2 = b :: t2x := by
      cases t2 with
      | nil => simp at hlen
      | cons b t2x => exact ⟨b, t2x, rfl⟩
    rw [List.map_cons, List.map_cons, stringJoin_cons, stringJoin_cons] at heq
    have hdata := congrArg String.data heq
    rw [String.data_append, String.data_append] at hdata
    have hlen1 : (Nat.repr a).data.length = (Nat.repr b).data.length := by
      rw [repr_length_of_lt_ten a (h1 a (by simp)), repr_length_of_lt_ten b (h2 b (by simp))]
    obtain ⟨hhead, htail⟩ := List.append_inj hdata hlen1
    have hab : a = b :=
      repr_inj_of_lt_ten a (h1 a (by simp)) b (h2 b (by simp)) (string_data_eq hhead)
    have hrest : t1 = t2 := by
      refine ih (by simpa using hlen) (fun d hd => h1 d (by simp [hd]))
        (fun d hd => h2 d (by simp [hd])) (string_data_eq htail)
    rw [hab, hrest]

theorem label_data_length {tup : List Nat} (h : ∀ d ∈ tup, d < 10) :
    (String.join (tup.map Nat.repr)).data.length = tup.length := by
  induction tup with
  | nil => rfl
  | cons a t ih =>
    rw [List.map_cons, stringJoin_cons]
    have hdata := String.data_append (Nat.repr a) (String.join (t.map Nat.repr))
    have : (Nat.repr a ++ String.join (t.map Nat.repr)).data.length =
        (Nat.repr a).data.length + (String.join (t.map Nat.repr)).data.length := by
      rw [hdata, List.length_append]
    rw [show (Nat.repr a ++ String.join (t.map Nat.repr)).data.length =
      ((Nat.repr a ++ String.join (t.map Nat.repr)).data).length from rfl] at this
    show ((Nat.repr a ++ String.join (t.map Nat.repr)).data).length = (a :: t).length
    rw [this, repr_length_of_lt_ten a (h a (by simp)), ih fun d hd => h d (by simp [hd])]
    simp [Nat.add_comm]

theorem emittedName_empty (c : TestCase T σ τ α) : emittedName "" c = c.TestName := by
  simp [emittedName]

theorem emittedName_of_ne_empty {nm : String} (h : nm ≠ "") (c : TestCase T σ τ α) :
    emittedName nm c = "Test Alternative #" ++ nm ++ "_" ++ c.TestName := by
  simp [emittedName, h]

theorem fullName_inj_name {nm n1 n2 : String}
    (h : "Test Alternative #" ++ nm ++ "_" ++ n1 = "Test Alternative #" ++ nm ++ "_" ++ n2) :
    n1 = n2 := by
  have hdata := congrArg String.data h
  simp only [String.data_append] at hdata
  exact string_data_eq (List.append_cancel_left hdata)

theorem fullName_inj_label {l1 l2 n1 n2 : String}
    (hlen : l1.data.length = l2.data.length)
    (h : "Test Alternative #" ++ l1 ++ "_" ++ n1 = "Test Alternative #" ++ l2 ++ "_" ++ n2) :
    l1 = l2 ∧ n1 = n2 := by
  have hdata := congrArg String.data h
  simp only [String.data_append] at hdata
  have hlen2 : ("Test Alternative #".data ++ l1.data ++ "_".data).length =
      ("Test Alternative #".data ++ l2.data ++ "_".data).length := by
    simp [List.length_append, hlen]
  rw [show "Test Alternative #".data ++ l1.data ++ "_".data ++ n1.data =
      ("Test Alternative #".data ++ l1.data ++ "_".data) ++ n1.data from by simp,
    show "Test Alternative #".data ++ l2.data ++ "_".data ++ n2.data =
      ("Test Alternative #".data ++ l2.data ++ "_".data) ++ n2.data from by simp] at hdata
  obtain ⟨hleft, hright⟩ := List.append_inj hdata hlen2
  refine ⟨?_, string_data_eq hright⟩
  have hlen3 : ("Test Alternative #".data ++ l1.data).length =
      ("Test Alternative #".data ++ l2.data).length := by
    simp [List.length_append, hlen]
  obtain ⟨hleft2, _⟩ := List.append_inj hleft hlen3
  exact string_data_eq (List.append_cancel_left hleft2)

theorem enum_map_snd_comp {β γ : Type} (l : List β) (f : β → γ) :
    l.enum.map (fun p => f p.2) = l.map f := by
  rw [show (fun p : Nat × β => f p.2) = f ∘ Prod.snd from rfl, ← List.map_map,
    List.enum_map_snd]

theorem tests_names [Inhabited σ] [Inhabited τ] [Inhabited α] (ts : TestsBuilder T σ τ α) :
    (Tests ts).map Prod.fst =
      (GenerateTestSets ts).flatMap fun tset =>
        tset.TestCases.map (emittedName tset.TestSetName) := by
  unfold Tests
  rw [List.map_flatMap]
  congr 1
  funext tset
  rw [List.map_map]
  show tset.TestCases.enum.map (fun p => emittedName tset.TestSetName p.2) = _
  exact enum_map_snd_comp _ _

/-! ### Names selected along a path -/

theorem toTuple_lt_ten {rs : List Nat} (h1 : ∀ r ∈ rs, 1 ≤ r) (h10 : ∀ r ∈ rs, r ≤ 10) :
    ∀ (v : Nat), ∀ d ∈ toTuple rs v, d < 10 := by
  induction rs with
  | nil => intro v d hd; simp [toTuple] at hd
  | cons r rs ih =>
    intro v d hd
    simp only [toTuple, List.mem_cons] at hd
    rcases hd with h | h
    · have hr : 1 ≤ r := h1 r (by simp)
      have hlt := Nat.mod_lt v (show 0 < r by omega)
      have := h10 r (by simp)
      omega
    · exact ih (fun x hx => h1 x (by simp [hx])) (fun x hx => h10 x (by simp [hx])) (v / r) d h

theorem forall₂_choose_lt [Inhabited α] {ts : TestsBuilder T σ τ α}
    (h : ∀ s ∈ ts.TestCaseSets, 1 ≤ s.TestAlternatives.length) (v : Nat) :
    List.Forall₂ (fun d (s : TestCaseSet T σ τ α) => d < s.TestAlternatives.length)
      (toTuple (altCounts ts) v) ts.TestCaseSets := by
  have h2 := forall₂_toTuple_lt (altCounts_pos h) v
  rw [altCounts] at h2
  exact List.forall₂_map_right_iff.mp h2

theorem chooseTestCases_names_sublist [Inhabited α]
    {sets : List (TestCaseSet T σ τ α)} {tup : List Nat}
    (h : List.Forall₂ (fun d (s : TestCaseSet T σ τ α) => d < s.TestAlternatives.length)
      tup sets) :
    (((chooseTestCases sets tup).map fun c => c.TestName).Sublist
      (sets.flatMap fun s => s.TestAlternatives.map fun c => c.TestName)) := by
  induction h with
  | nil => simp [chooseTestCases]
  | @cons d s tupR setsR hd htail ih =>
    have hx : (s.TestAlternatives.getD d defaultTestCase).TestName ∈
        s.TestAlternatives.map fun c => c.TestName := by
      rw [List.getD_eq_getElem _ _ hd]
      exact List.mem_map_of_mem _ (List.getElem_mem hd)
    show ((s.TestAlternatives.getD d defaultTestCase).TestName ::
        ((chooseTestCases setsR tupR).map fun c => c.TestName)).Sublist
      ((s.TestAlternatives.map fun c => c.TestName) ++
        setsR.flatMap fun s => s.TestAlternatives.map fun c => c.TestName)
    rw [show (s.TestAlternatives.getD d defaultTestCase).TestName ::
        ((chooseTestCases setsR tupR).map fun c => c.TestName) =
      [(s.TestAlternatives.getD d defaultTestCase).TestName] ++
        ((chooseTestCases setsR tupR).map fun c => c.TestName) from rfl]
    exact List.Sublist.append (List.singleton_sublist.mpr hx) ih

theorem chooseTestCases_single_names [Inhabited α]
    {sets : List (TestCaseSet T σ τ α)} {tup : List Nat}
    (h : List.Forall₂ (fun d (s : TestCaseSet T σ τ α) => d < s.TestAlternatives.length)
      tup sets)
    (hone : ∀ s ∈ sets, s.TestAlternatives.length = 1) :
    ((chooseTestCases sets tup).map fun c => c.TestName) =
      sets.flatMap fun s => s.TestAlternatives.map fun c => c.TestName := by
  induction h with
  | nil => simp [chooseTestCases]
  | @cons d s tupR setsR hd htail ih =>
    have hs1 : s.TestAlternatives.length = 1 := hone s (by simp)
    obtain ⟨a, ha⟩ := List.length_eq_one.mp hs1
    have hd0 : d = 0 := by rw [hs1] at hd; omega
    subst hd0
    show ((s.TestAlternatives.getD 0 defaultTestCase).TestName ::
        ((chooseTestCases setsR tupR).map fun c => c.TestName)) = _
    rw [ha, ih fun x hx => hone x (by simp [hx])]
    simp [ha]

/-! ### Claim theorems -/

/-- C1: for every path `P` and position `i`, the fixture builder starts from a
fresh zero-valued SUT/state pair, folds the cumulative builders of positions
`0..i` in increasing order (an absent builder is a no-op), then applies the
one-shot builder of position `i` exactly once if present, and returns the pair
with the assertion of `P[i]`; `build` is a pure function of its arguments that
restarts from the zero values on each call, so nothing is memoized across
calls. Concretely, four single-alternative stages appending a, b, c, d yield
SUT values a, ab, abc, abcd at positions 0 to 3. -/
theorem c1_build_contract :
    (∀ (T σ τ α : Type) [Inhabited σ] [Inhabited τ] [Inhabited α]
        (P : List (TestCase T σ τ α)) (i : Nat) (t : T),
        build P i (P.getD i defaultTestCase) t =
          { SUT := (specBuild P i t).1, State := (specBuild P i t).2,
            Assert := (P.getD i defaultTestCase).Assertion }) ∧
      ((Tests exampleFourStages).map fun p => (p.2 ()).SUT) = ["a", "ab", "abc", "abcd"] := by
  refine ⟨?_, by decide⟩
  intro T σ τ α _ _ _ P i t
  exact build_eq_spec P i _ t

/-- C2: a single call of the builder for `(P, i)` never runs a cumulative
builder beyond position `i` and never runs a one-shot builder other than that
of position `i`: its result depends only on the cumulative builders of
positions `0..i` and the one-shot builder of position `i`. Concretely, with
the third stage (position 2) carrying a one-shot builder overwriting the SUT
with the sentinel, position 2 builds the sentinel while position 3 builds
abcd, free of the sentinel. -/
theorem c2_no_foreign_builders :
    (∀ (T σ τ α : Type) [Inhabited σ] [Inhabited τ] [Inhabited α]
        (P Q : List (TestCase T σ τ α)) (i : Nat) (t : T)
        (cur cur2 : TestCase T σ τ α),
        (P.take (i + 1)).map (fun c => c.StateBuilder) =
            (Q.take (i + 1)).map (fun c => c.StateBuilder) →
        (P.getD i defaultTestCase).SpecificBuilder =
            (Q.getD i defaultTestCase).SpecificBuilder →
        (build P i cur t).SUT = (build Q i cur2 t).SUT ∧
          (build P i cur t).State = (build Q i cur2 t).State) ∧
      (((Tests exampleFourStagesSentinel).map fun p => (p.2 ()).SUT) =
          ["a", "ab", "-", "abcd"] ∧
        ¬ ('-') ∈ (((Tests exampleFourStagesSentinel).map fun p =>
          (p.2 ()).SUT).getD 3 "").data) := by
  refine ⟨?_, by decide, by decide⟩
  intro T σ τ α _ _ _ P Q i t cur cur2 h1 h2
  have h := build_frame P Q i t h1 h2
  constructor <;> simp [build, h]

/-- C2 witness: the frame property applied at position 2 of the concrete
sentinel path against a path whose position 3 differs entirely. -/
theorem c2_witness :
    ((exampleSentinelPath.take 3).map (fun c => c.StateBuilder) =
        (exampleAlteredPath.take 3).map fun c => c.StateBuilder) ∧
      ((exampleSentinelPath.getD 2 defaultTestCase).SpecificBuilder =
        (exampleAlteredPath.getD 2 defaultTestCase).SpecificBuilder) ∧
      (build exampleSentinelPath 2 defaultTestCase ()).SUT =
        (build exampleAlteredPath 2 defaultTestCase ()).SUT := by
  refine ⟨rfl, rfl, ?_⟩
  exact (c2_no_foreign_builders.1 Unit String Unit Unit exampleSentinelPath
    exampleAlteredPath 2 () defaultTestCase defaultTestCase rfl rfl).1

/-- C4 counterexample: the enumeration of radices 1, 3, 1, 2 does not end at
the all-zero tuple: its last tuple is 0, 2, 0, 1, and even after reporting
done the counter still holds that tuple rather than wrapping to zero. -/
theorem c4_counterexample :
    (counterSeq [1, 3, 1, 2]).getLast? = some [0, 2, 0, 1] ∧
      some ([0, 2, 0, 1] : List Nat) ≠ some (List.replicate 4 (0 : Nat)) ∧
      AddOne ⟨[0, 2, 0, 1], [1, 3, 1, 2]⟩ = (⟨[0, 2, 0, 1], [1, 3, 1, 2]⟩, true) := by
  decide

/-- C4 (amended): for every radix list with all entries at least 1, the
counter driven by repeated `AddOne` until done enumerates exactly the product
of the radices distinct tuples, starting at the all-zero tuple and ending at
the tuple whose every index equals its radix minus one (not at the all-zero
tuple), in fast-cycling-low-dimension order: the sequence is the little-endian
mixed-radix digits of 0, 1, 2, ... in order. Radices 1, 3, 1, 2 produce the
labels 0000, 0100, 0200, 0001, 0101, 0201, with the label concatenating each
index as unseparated decimal digits. -/
theorem c4_counter_order (radices : List Nat) (h : ∀ r ∈ radices, 1 ≤ r) :
    counterSeq radices = (List.range radices.prod).map (toTuple radices) ∧
      (counterSeq radices).length = radices.prod ∧
      (counterSeq radices).Nodup ∧
      (counterSeq radices).head? = some (List.replicate radices.length 0) ∧
      (counterSeq radices).getLast? = some (radices.map fun r => r - 1) ∧
      (counterSeq [1, 3, 1, 2]).map (fun tup => counterString ⟨tup, [1, 3, 1, 2]⟩) =
        ["0000", "0100", "0200", "0001", "0101", "0201"] := by
  have hseq := counterSeq_eq_range_map h
  obtain ⟨m, hm⟩ : ∃ m, radices.prod = m + 1 :=
    ⟨radices.prod - 1, by have := List.prod_pos (fun a ha => h a ha); omega⟩
  refine ⟨hseq, by rw [hseq]; simp, ?_, ?_, ?_, by decide⟩
  · rw [hseq]
    refine List.Nodup.map_on ?_ (List.nodup_range _)
    intro x hx y hy hxy
    exact toTuple_inj h (List.mem_range.mp hx) (List.mem_range.mp hy) hxy
  · rw [hseq, hm, List.range_succ_eq_map]
    simp [toTuple_zero]
  · rw [hseq, hm, List.range_succ, List.map_append]
    simp only [List.map_cons, List.map_nil]
    rw [List.getLast?_concat]
    have hm2 : m = radices.prod - 1 := by omega
    rw [hm2, toTuple_prod_pred h]

/-- C4 witness: the amended theorem applied to radices 1, 3, 1, 2 gives an
enumeration of length 6. -/
theorem c4_witness :
    (∀ r ∈ [1, 3, 1, 2], 1 ≤ r) ∧ (counterSeq [1, 3, 1, 2]).length = 6 := by
  refine ⟨by decide, ?_⟩
  exact ((c4_counter_order [1, 3, 1, 2] (by decide)).2.1).trans (by decide)

/-- C5: for every registry whose stages are all non-empty, the number of
generated TestSets equals the product of the per-stage alternative counts. -/
theorem c5_path_count {T σ τ α : Type} [Inhabited α] (ts : TestsBuilder T σ τ α)
    (h : ∀ s ∈ ts.TestCaseSets, 1 ≤ s.TestAlternatives.length) :
    (GenerateTestSets ts).length = (altCounts ts).prod := by
  rw [GenerateTestSets_eq_range ts h]
  simp

/-- C5 witness: a registry with per-stage alternative counts 2, 1, 2 yields
exactly 4 generated TestSets. -/
theorem c5_witness :
    (∀ s ∈ exampleCounts212.TestCaseSets, 1 ≤ s.TestAlternatives.length) ∧
      (GenerateTestSets exampleCounts212).length = 4 := by
  refine ⟨by decide, ?_⟩
  exact (c5_path_count exampleCounts212 (by decide)).trans (by decide)

/-- C6 counterexample: with zero registered stages `GenerateTestSets` does not
produce an empty set of paths: it produces exactly one degenerate TestSet,
which contains zero test cases. -/
theorem c6_counterexample :
    (GenerateTestSets exampleEmpty).length = 1 ∧
      ((GenerateTestSets exampleEmpty).map fun s => s.TestCases.length) = [0] := by
  exact ⟨rfl, rfl⟩

/-- C6 (amended): with zero registered stages, enumeration is not an error:
`GenerateTestSets` produces a single degenerate TestSet holding zero test
cases and no label, and downstream the `Tests` iterator yields no
(name, builder) pairs. -/
theorem c6_empty_registry {T σ τ α : Type} [Inhabited σ] [Inhabited τ] [Inhabited α]
    (ts : TestsBuilder T σ τ α) (h : ts.TestCaseSets = []) :
    GenerateTestSets ts = [{ TestCases := [], TestSetName := "" }] ∧ Tests ts = [] := by
  obtain ⟨sets⟩ := ts
  simp only [] at h
  subst h
  exact ⟨rfl, rfl⟩

/-- C6 witness: the amended theorem applied to the empty registry. -/
theorem c6_witness :
    GenerateTestSets exampleEmpty = [{ TestCases := [], TestSetName := "" }] ∧
      Tests exampleEmpty = [] :=
  c6_empty_registry exampleEmpty rfl

/-- C7: if every stage has exactly one alternative, exactly one path exists
and every emitted name is the registered name unmodified, in stage order; if
some stage has more than one alternative (all stages being non-empty), every
emitted pair carries the combination label of its path, emitted in the form
Test Alternative #label_name. -/
theorem c7_label_attachment {T σ τ α : Type} [Inhabited σ] [Inhabited τ] [Inhabited α]
    (ts : TestsBuilder T σ τ α) :
    ((∀ s ∈ ts.TestCaseSets, s.TestAlternatives.length = 1) →
      (GenerateTestSets ts).length = 1 ∧
        (Tests ts).map Prod.fst =
          ts.TestCaseSets.flatMap fun s => s.TestAlternatives.map fun c => c.TestName) ∧
    ((∀ s ∈ ts.TestCaseSets, 1 ≤ s.TestAlternatives.length) →
      (∃ s ∈ ts.TestCaseSets, 1 < s.TestAlternatives.length) →
      ∀ p ∈ Tests ts, ∃ tset ∈ GenerateTestSets ts, ∃ tc ∈ tset.TestCases,
        tset.TestSetName ≠ "" ∧
        p.1 = "Test Alternative #" ++ tset.TestSetName ++ "_" ++ tc.TestName) := by
  constructor
  · intro h1
    have hle : ∀ s ∈ ts.TestCaseSets, 1 ≤ s.TestAlternatives.length := fun s hs => by
      rw [h1 s hs]
    have hprod : (altCounts ts).prod = 1 := by
      refine List.prod_eq_one ?_
      intro x hx
      simp only [altCounts, List.mem_map] at hx
      obtain ⟨s, hs, rfl⟩ := hx
      exact h1 s hs
    have hmore : moreFlag ts = false := by
      cases hA : moreFlag ts
      · rfl
      · exfalso
        rw [moreFlag, List.any_eq_true] at hA
        obtain ⟨n, hn, hd⟩ := hA
        simp only [altCounts, List.mem_map] at hn
        obtain ⟨s, hs, rfl⟩ := hn
        rw [h1 s hs] at hd
        simp at hd
    refine ⟨?_, ?_⟩
    · rw [GenerateTestSets_eq_range ts hle, hprod]
      simp
    · rw [tests_names, GenerateTestSets_eq_range ts hle, hprod,
        show List.range 1 = [0] from rfl]
      simp only [List.map_cons, List.map_nil, List.flatMap_cons,
        List.flatMap_nil, List.append_nil]
      rw [show (mkTestSet ts.TestCaseSets (moreFlag ts)
          (toTuple (altCounts ts) 0)).TestSetName = "" from by simp [mkTestSet, hmore]]
      rw [show (emittedName ("" : String) : TestCase T σ τ α → String) =
        (fun c : TestCase T σ τ α => c.TestName) from funext fun c => emittedName_empty c]
      exact chooseTestCases_single_names (forall₂_choose_lt hle 0) h1
  · intro hle hsome p hp
    obtain ⟨s0, hs0, hlt⟩ := hsome
    have hmore : moreFlag ts = true := by
      rw [moreFlag, List.any_eq_true]
      refine ⟨s0.TestAlternatives.length, ?_, by simpa using hlt⟩
      simp only [altCounts, List.mem_map]
      exact ⟨s0, hs0, rfl⟩
    unfold Tests at hp
    rw [List.mem_flatMap] at hp
    obtain ⟨tset, htset, hpin⟩ := hp
    rw [List.mem_map] at hpin
    obtain ⟨pr, hpr, rfl⟩ := hpin
    obtain ⟨i, tc⟩ := pr
    have htc : tc ∈ tset.TestCases := by
      obtain ⟨hi, htceq⟩ := List.mem_enum hpr
      exact htceq ▸ List.getElem_mem hi
    have hname : tset.TestSetName ≠ "" := by
      have htset2 := htset
      rw [GenerateTestSets_eq_range ts hle, List.mem_map] at htset2
      obtain ⟨v, _, rfl⟩ := htset2
      show (mkTestSet ts.TestCaseSets (moreFlag ts)
        (toTuple (altCounts ts) v)).TestSetName ≠ ""
      rw [show (mkTestSet ts.TestCaseSets (moreFlag ts)
          (toTuple (altCounts ts) v)).TestSetName =
        String.join ((toTuple (altCounts ts) v).map Nat.repr) from by
          simp [mkTestSet, hmore]]
      apply label_ne_empty
      intro h0
      have hlen := toTuple_length (altCounts ts) v
      rw [h0] at hlen
      have hnil : ts.TestCaseSets = [] := by
        simp only [altCounts, List.length_map] at hlen
        exact List.length_eq_zero.mp hlen.symm
      rw [hnil] at hs0
      simp at hs0
    exact ⟨tset, htset, tc, htc, hname, emittedName_of_ne_empty hname tc⟩

/-- C7 witness: the one-alternative part applied to the four-stage a, b, c, d
registry, whose four emitted names are the registered names unmodified, and
the label part applied to a registry with alternative counts 2, 1, 2. -/
theorem c7_witness :
    ((Tests exampleFourStages).map Prod.fst = ["1", "2", "3", "4"]) ∧
      (∀ p ∈ Tests exampleCounts212, ∃ tset ∈ GenerateTestSets exampleCounts212,
        ∃ tc ∈ tset.TestCases, tset.TestSetName ≠ "" ∧
          p.1 = "Test Alternative #" ++ tset.TestSetName ++ "_" ++ tc.TestName) := by
  constructor
  · exact (((c7_label_attachment exampleFourStages).1 (by decide)).2).trans (by decide)
  · exact (c7_label_attachment exampleCounts212).2 (by decide) (by decide)

/-- C8 counterexample: two single-alternative stages both registered under
the name x produce, within the single path, the emitted name x twice: the
emitted names are not unique as the claim states. -/
theorem c8_counterexample :
    ¬ (((Tests exampleDupNames).map Prod.fst).Nodup) := by decide

/-- C8 (amended): for every registry in which all registered alternative
names are pairwise distinct and every stage has between 1 and 10
alternatives, any two distinct (path, position) pairs in the full emitted
sequence receive distinct emitted names; in particular names are unique
within a single path. (The counterexample forces the name-distinctness
hypothesis; labels are single decimal digits per stage only up to 10
alternatives, beyond which the unpadded label encoding can collide, a case
the spec itself leaves undefined.) -/
theorem c8_name_uniqueness {T σ τ α : Type} [Inhabited σ] [Inhabited τ] [Inhabited α]
    (ts : TestsBuilder T σ τ α)
    (hb : ∀ s ∈ ts.TestCaseSets,
      1 ≤ s.TestAlternatives.length ∧ s.TestAlternatives.length ≤ 10)
    (hn : (ts.TestCaseSets.flatMap fun s =>
      s.TestAlternatives.map fun c => c.TestName).Nodup) :
    ((Tests ts).map Prod.fst).Nodup := by
  have hle : ∀ s ∈ ts.TestCaseSets, 1 ≤ s.TestAlternatives.length := fun s hs => (hb s hs).1
  have h10 : ∀ r ∈ altCounts ts, r ≤ 10 := by
    intro r hr
    simp only [altCounts, List.mem_map] at hr
    obtain ⟨s, hs, rfl⟩ := hr
    exact (hb s hs).2
  have hpos := altCounts_pos hle
  have hdig : ∀ v, ∀ d ∈ toTuple (altCounts ts) v, d < 10 := toTuple_lt_ten hpos h10
  have hpathN : ∀ v, ((chooseTestCases ts.TestCaseSets
      (toTuple (altCounts ts) v)).map fun c => c.TestName).Nodup := fun v =>
    (chooseTestCases_names_sublist (forall₂_choose_lt hle v)).nodup hn
  rw [tests_names, GenerateTestSets_eq_range ts hle, List.flatMap_def, List.map_map,
    List.nodup_flatten]
  cases hm : moreFlag ts with
  | false =>
    have hone : ∀ n ∈ altCounts ts, n = 1 := by
      intro n hnn
      have h1n : 1 ≤ n := hpos n hnn
      by_contra hne
      have h2 : moreFlag ts = true := by
        rw [moreFlag, List.any_eq_true]
        exact ⟨n, hnn, by simp; omega⟩
      rw [hm] at h2
      simp at h2
    have hprod : (altCounts ts).prod = 1 := List.prod_eq_one hone
    rw [hprod]
    constructor
    · intro l hl
      rw [show List.range 1 = [0] from rfl, List.map_cons, List.map_nil] at hl
      simp only [List.mem_singleton] at hl
      subst hl
      show ((mkTestSet ts.TestCaseSets false (toTuple (altCounts ts) 0)).TestCases.map
        (emittedName (mkTestSet ts.TestCaseSets false
          (toTuple (altCounts ts) 0)).TestSetName)).Nodup
      rw [show (mkTestSet ts.TestCaseSets false
          (toTuple (altCounts ts) 0)).TestSetName = "" from by simp [mkTestSet]]
      rw [show (emittedName ("" : String) : TestCase T σ τ α → String) =
        (fun c : TestCase T σ τ α => c.TestName) from funext fun c => emittedName_empty c]
      exact hpathN 0
    · rw [show List.range 1 = [0] from rfl, List.map_cons, List.map_nil]
      exact List.pairwise_singleton _ _
  | true =>
    have hcne : altCounts ts ≠ [] := by
      intro h0
      rw [moreFlag, h0] at hm
      simp at hm
    have htne : ∀ v, toTuple (altCounts ts) v ≠ [] := by
      intro v h0
      have hlen := toTuple_length (altCounts ts) v
      rw [h0] at hlen
      exact hcne (List.length_eq_zero.mp hlen.symm)
    have hnmne : ∀ v, String.join ((toTuple (altCounts ts) v).map Nat.repr) ≠ "" :=
      fun v => label_ne_empty (htne v)
    have hchunk : ∀ v, ((mkTestSet ts.TestCaseSets true
        (toTuple (altCounts ts) v)).TestCases.map
          (emittedName (mkTestSet ts.TestCaseSets true
            (toTuple (altCounts ts) v)).TestSetName)) =
        ((chooseTestCases ts.TestCaseSets (toTuple (altCounts ts) v)).map
          fun c => c.TestName).map
            fun n => "Test Alternative #" ++
              String.join ((toTuple (altCounts ts) v).map Nat.repr) ++ "_" ++ n := by
      intro v
      rw [List.map_map]
      refine List.map_congr_left fun c _ => ?_
      show emittedName (mkTestSet ts.TestCaseSets true
        (toTuple (altCounts ts) v)).TestSetName c = _
      rw [show (mkTestSet ts.TestCaseSets true (toTuple (altCounts ts) v)).TestSetName =
        String.join ((toTuple (altCounts ts) v).map Nat.repr) from by simp [mkTestSet]]
      exact emittedName_of_ne_empty (hnmne v) c
    constructor
    · intro l hl
      rw [List.mem_map] at hl
      obtain ⟨v, _, rfl⟩ := hl
      show ((mkTestSet ts.TestCaseSets true (toTuple (altCounts ts) v)).TestCases.map
        (emittedName (mkTestSet ts.TestCaseSets true
          (toTuple (altCounts ts) v)).TestSetName)).Nodup
      rw [hchunk v]
      refine List.Nodup.map ?_ (hpathN v)
      intro n1 n2 hEq
      exact fullName_inj_name hEq
    · rw [List.pairwise_map]
      refine (List.pairwise_lt_range _).imp_of_mem ?_
      intro v w hv hw hvw
      intro x hxv hxw
      have hxv2 : x ∈ ((chooseTestCases ts.TestCaseSets (toTuple (altCounts ts) v)).map
          fun c => c.TestName).map fun n => "Test Alternative #" ++
            String.join ((toTuple (altCounts ts) v).map Nat.repr) ++ "_" ++ n := by
        rw [← hchunk v]
        exact hxv
      have hxw2 : x ∈ ((chooseTestCases ts.TestCaseSets (toTuple (altCounts ts) w)).map
          fun c => c.TestName).map fun n => "Test Alternative #" ++
            String.join ((toTuple (altCounts ts) w).map Nat.repr) ++ "_" ++ n := by
        rw [← hchunk w]
        exact hxw
      rw [List.mem_map] at hxv2 hxw2
      obtain ⟨n1, _, hx1⟩ := hxv2
      obtain ⟨n2, _, hx2⟩ := hxw2
      have hlab : (String.join ((toTuple (altCounts ts) v).map Nat.repr)).data.length =
          (String.join ((toTuple (altCounts ts) w).map Nat.repr)).data.length := by
        rw [label_data_length (hdig v), label_data_length (hdig w),
          toTuple_length, toTuple_length]
      have hfull := hx1.trans hx2.symm
      obtain ⟨hlabeq, _⟩ := fullName_inj_label hlab hfull
      have htupeq := label_inj (by rw [toTuple_length, toTuple_length])
        (hdig v) (hdig w) hlabeq
      have hveq := toTuple_inj hpos (List.mem_range.mp hv) (List.mem_range.mp hw) htupeq
      omega

/-- C8 witness: the amended theorem applied to the registry with alternative
counts 2, 1, 2 and five distinct registered names: all 12 emitted names are
distinct. -/
theorem c8_witness :
    (∀ s ∈ exampleCounts212.TestCaseSets,
        1 ≤ s.TestAlternatives.length ∧ s.TestAlternatives.length ≤ 10) ∧
      ((exampleCounts212.TestCaseSets.flatMap fun s =>
        s.TestAlternatives.map fun c => c.TestName).Nodup) ∧
      ((Tests exampleCounts212).map Prod.fst).Nodup :=
  ⟨by decide, by decide, c8_name_uniqueness exampleCounts212 (by decide) (by decide)⟩

/-- C9: `RegisterAlternative` on a registry with at least one stage appends a
new alternative of the given name (and zero-valued fields) to the most
recently created stage and returns it as the handle; on a registry with zero
stages it fails with the documented panic message, modelled as an error, and
returns no updated registry. -/
theorem c9_register_alternative {T σ τ α : Type} [Inhabited α]
    (ts : TestsBuilder T σ τ α) (name : String) :
    (ts.TestCaseSets = [] →
      RegisterAlternative ts name =
        Except.error (registerAlternativePanicMessage name)) ∧
    (∀ h : ts.TestCaseSets ≠ [],
      RegisterAlternative ts name =
        Except.ok
          ({ TestCaseSets := ts.TestCaseSets.dropLast ++
              [{ TestAlternatives := (ts.TestCaseSets.getLast h).TestAlternatives ++
                [{ TestName := name, StateBuilder := none, SpecificBuilder := none,
                   Assertion := default }] }] },
            { TestName := name, StateBuilder := none, SpecificBuilder := none,
              Assertion := default })) := by
  obtain ⟨sets⟩ := ts
  cases sets with
  | nil => exact ⟨fun _ => rfl, fun h => absurd rfl h⟩
  | cons a l =>
    refine ⟨fun h => by simp at h, fun h => ?_⟩
    rfl

/-- C9 witness: the error branch on the empty registry and the success branch
on a one-stage registry. -/
theorem c9_witness :
    RegisterAlternative exampleEmpty "x" =
        Except.error (registerAlternativePanicMessage "x") ∧
      RegisterAlternative exampleOneStage "y" =
        Except.ok
          ({ TestCaseSets := [{ TestAlternatives := [namedCase "a", namedCase "y"] }] },
            namedCase "y") := by
  refine ⟨(c9_register_alternative exampleEmpty "x").1 rfl, ?_⟩
  have h := (c9_register_alternative exampleOneStage "y").2 (by simp [exampleOneStage])
  exact h.trans rfl

/-- C10: the `Tests` iterator emits its pairs in combination-major order: for
the counter values 0, 1, ... up to the product of the alternative counts (the
all-zero tuple first), it emits one pair per stage position of that
combination in increasing position order, finishing one combination before
starting the next. -/
theorem c10_emission_order {T σ τ α : Type} [Inhabited σ] [Inhabited τ] [Inhabited α]
    (ts : TestsBuilder T σ τ α)
    (h : ∀ s ∈ ts.TestCaseSets, 1 ≤ s.TestAlternatives.length) :
    Tests ts =
      ((List.range (altCounts ts).prod).map fun v =>
        (chooseTestCases ts.TestCaseSets (toTuple (altCounts ts) v)).enum.map fun p =>
          (emittedName (if moreFlag ts then
              String.join ((toTuple (altCounts ts) v).map Nat.repr) else "") p.2,
            fun t => build (chooseTestCases ts.TestCaseSets
              (toTuple (altCounts ts) v)) p.1 p.2 t)).flatten := by
  unfold Tests
  rw [GenerateTestSets_eq_range ts h, List.flatMap_def, List.map_map]
  rfl

/-- C10 witness: the emission order theorem applied to the registry with
alternative counts 2, 1, 2. -/
theorem c10_witness :
    Tests exampleCounts212 =
      ((List.range (altCounts exampleCounts212).prod).map fun v =>
        (chooseTestCases exampleCounts212.TestCaseSets
          (toTuple (altCounts exampleCounts212) v)).enum.map fun p =>
          (emittedName (if moreFlag exampleCounts212 then
              String.join ((toTuple (altCounts exampleCounts212) v).map Nat.repr) else "") p.2,
            fun t => build (chooseTestCases exampleCounts212.TestCaseSets
              (toTuple (altCounts exampleCounts212) v)) p.1 p.2 t)).flatten :=
  c10_emission_order exampleCounts212 (by decide)

end GoTestBuilder
